import Mathlib

/-!
Verification development for the Ruke-apis repository.

The quiz automation core (AnswerCache, QuizDetector, AnswerExtractor,
AnswerResolver) ships only as documentation in `Quiz-Bot/README.md`; its
Python implementation (`main.py`) is not part of the source tree.  Those
components are therefore modelled from the specification text, faithfully
following its words; every such definition carries a doc comment starting
`Modelled from the spec:`.  The web handlers (`pages/api/orders/checkout.js`,
the login handlers in `pages/api/orders/all.js` and the Express backend) are
present in the tree and are embedded from their JavaScript source.
-/

namespace RukeApis

/-! ## Text utilities (character-list level) -/

/-- True for the whitespace characters the normalisation collapses. -/
def isWsChar (c : Char) : Bool :=
  c = ' ' || c = '\t' || c = '\n' || c = '\r'

/-- Split a character list into maximal runs of non-whitespace characters. -/
def splitWordsAux (acc : List Char) : List Char → List (List Char)
  | [] => if acc.isEmpty then [] else [acc.reverse]
  | c :: cs =>
    if isWsChar c then
      if acc.isEmpty then splitWordsAux [] cs
      else acc.reverse :: splitWordsAux [] cs
    else splitWordsAux (c :: acc) cs

/-- Words of a character list (whitespace-separated tokens). -/
def splitWords (cs : List Char) : List (List Char) :=
  splitWordsAux [] cs

/-- Split a character list into lines at newline characters. -/
def splitLinesAux (acc : List Char) : List Char → List (List Char)
  | [] => [acc.reverse]
  | c :: cs =>
    if c = '\n' then acc.reverse :: splitLinesAux [] cs
    else splitLinesAux (c :: acc) cs

/-- Lines of a character list. -/
def splitLines (cs : List Char) : List (List Char) :=
  splitLinesAux [] cs

/-- Strip leading and trailing whitespace from a character list. -/
def trimChars (cs : List Char) : List Char :=
  ((cs.dropWhile isWsChar).reverse.dropWhile isWsChar).reverse

/-! ## QuestionFingerprint

Modelled from the spec: "normalized (case-folded, whitespace-collapsed)
hash of question text; used as the cache and dedup key"  (spec §3). -/

/-- Modelled from the spec: case-folding step of fingerprint normalisation. -/
def caseFold (cs : List Char) : List Char :=
  cs.map Char.toLower

/-- Modelled from the spec: whitespace-collapsing step of fingerprint
normalisation — runs of whitespace become a single space and outer
whitespace is dropped. -/
def wsCollapse (cs : List Char) : List Char :=
  List.intercalate [' '] (splitWords cs)

/-- Modelled from the spec: the normalised form of a question text. -/
def normalizeText (s : String) : List Char :=
  wsCollapse (caseFold s.data)

/-- A deterministic string hash (31-polynomial over char codes, 32-bit). -/
def hashChars (cs : List Char) : Nat :=
  cs.foldl (fun h c => (h * 31 + c.toNat) % 4294967296) 5381

/-- Modelled from the spec: the question fingerprint — the hash of the
normalised question text (`main.py` is not in the tree; the hash function
itself is a modelling choice, only its determinism matters). -/
def fingerprint (s : String) : Nat :=
  hashChars (normalizeText s)

/-! ## AnswerCache

Modelled from the spec: "fingerprint → {letter, hitCount, lastUsedAt}.
Invariant: at most one entry per fingerprint; writes are upserts that
increment hitCount"  (spec §3, §4.1); persisted in `questions.json` per
the Quiz-Bot README. -/

structure AnswerCacheEntry where
  fp : Nat
  letter : Char
  hitCount : Nat
  deriving DecidableEq, Repr

/-- Modelled from the spec: `lookup(fingerprint) -> letter|miss`. -/
def lookup (cache : List AnswerCacheEntry) (f : Nat) : Option Char :=
  (cache.find? (fun e => e.fp = f)).map (fun e => e.letter)

/-- Modelled from the spec: `upsert(fingerprint, letter)` — update the
existing entry (incrementing its hit count) or append a fresh one. -/
def upsert : List AnswerCacheEntry → Nat → Char → List AnswerCacheEntry
  | [], f, l => [⟨f, l, 1⟩]
  | e :: rest, f, l =>
    if e.fp = f then { e with letter := l, hitCount := e.hitCount + 1 } :: rest
    else e :: upsert rest f l

/-- The hit count recorded for a fingerprint (0 when absent). -/
def hits (cache : List AnswerCacheEntry) (f : Nat) : Nat :=
  match cache.find? (fun e => e.fp = f) with
  | some e => e.hitCount
  | none => 0

/-- The list of fingerprints present in the cache. -/
def cacheKeys (cache : List AnswerCacheEntry) : List Nat :=
  cache.map (fun e => e.fp)

/-- Apply a sequence of upserts in order. -/
def applyUpserts (cache : List AnswerCacheEntry) :
    List (Nat × Char) → List AnswerCacheEntry
  | [] => cache
  | op :: ops => applyUpserts (upsert cache op.1 op.2) ops

/-! ### Cache lemmas -/

theorem cacheKeys_cons (e : AnswerCacheEntry) (c : List AnswerCacheEntry) :
    cacheKeys (e :: c) = e.fp :: cacheKeys c := rfl

theorem upsert_cons_hit (e : AnswerCacheEntry) (c : List AnswerCacheEntry)
    (f : Nat) (l : Char) (h : e.fp = f) :
    upsert (e :: c) f l =
      { e with letter := l, hitCount := e.hitCount + 1 } :: c := by
  simp [upsert, h]

theorem upsert_cons_miss (e : AnswerCacheEntry) (c : List AnswerCacheEntry)
    (f : Nat) (l : Char) (h : ¬ e.fp = f) :
    upsert (e :: c) f l = e :: upsert c f l := by
  simp [upsert, h]

theorem lookup_cons (e : AnswerCacheEntry) (c : List AnswerCacheEntry)
    (f : Nat) :
    lookup (e :: c) f = if e.fp = f then some e.letter else lookup c f := by
  by_cases h : e.fp = f <;> simp [lookup, List.find?, h]

theorem hits_cons (e : AnswerCacheEntry) (c : List AnswerCacheEntry)
    (f : Nat) :
    hits (e :: c) f = if e.fp = f then e.hitCount else hits c f := by
  by_cases h : e.fp = f <;> simp [hits, List.find?, h]

theorem lookup_upsert_self (c : List AnswerCacheEntry) (f : Nat) (l : Char) :
    lookup (upsert c f l) f = some l := by
  induction c with
  | nil => simp [upsert, lookup, List.find?]
  | cons e rest ih =>
    by_cases h : e.fp = f
    · rw [upsert_cons_hit e rest f l h, lookup_cons]
      simp [h]
    · rw [upsert_cons_miss e rest f l h, lookup_cons]
      simp [h, ih]

theorem lookup_upsert_ne (c : List AnswerCacheEntry) (f f' : Nat) (l : Char)
    (hne : f' ≠ f) : lookup (upsert c f l) f' = lookup c f' := by
  induction c with
  | nil => simp [upsert, lookup, List.find?, Ne.symm hne]
  | cons e rest ih =>
    by_cases h : e.fp = f
    · rw [upsert_cons_hit e rest f l h, lookup_cons, lookup_cons]
      have hne2 : ¬ e.fp = f' := by rw [h]; exact Ne.symm hne
      simp [hne2]
    · rw [upsert_cons_miss e rest f l h, lookup_cons, lookup_cons, ih]

theorem hits_upsert_self (c : List AnswerCacheEntry) (f : Nat) (l : Char) :
    hits (upsert c f l) f = hits c f + 1 := by
  induction c with
  | nil => simp [upsert, hits, List.find?]
  | cons e rest ih =>
    by_cases h : e.fp = f
    · rw [upsert_cons_hit e rest f l h, hits_cons, hits_cons]
      simp [h]
    · rw [upsert_cons_miss e rest f l h, hits_cons, hits_cons]
      simp [h, ih]

theorem mem_cacheKeys_upsert (c : List AnswerCacheEntry) (f : Nat) (l : Char)
    (x : Nat) : x ∈ cacheKeys (upsert c f l) ↔ x ∈ cacheKeys c ∨ x = f := by
  induction c with
  | nil => simp [upsert, cacheKeys]
  | cons e rest ih =>
    by_cases h : e.fp = f
    · rw [upsert_cons_hit e rest f l h, cacheKeys_cons, cacheKeys_cons]
      subst h
      simp only [List.mem_cons]
      tauto
    · rw [upsert_cons_miss e rest f l h, cacheKeys_cons, cacheKeys_cons]
      simp only [List.mem_cons, ih]
      tauto

theorem nodup_cacheKeys_upsert (c : List AnswerCacheEntry) (f : Nat) (l : Char)
    (h : (cacheKeys c).Nodup) : (cacheKeys (upsert c f l)).Nodup := by
  induction c with
  | nil => simp [upsert, cacheKeys]
  | cons e rest ih =>
    rw [cacheKeys_cons, List.nodup_cons] at h
    by_cases hf : e.fp = f
    · rw [upsert_cons_hit e rest f l hf, cacheKeys_cons, List.nodup_cons]
      exact ⟨h.1, h.2⟩
    · rw [upsert_cons_miss e rest f l hf, cacheKeys_cons, List.nodup_cons]
      refine ⟨?_, ih h.2⟩
      rw [mem_cacheKeys_upsert]
      rintro (hmem | rfl)
      · exact h.1 hmem
      · exact hf rfl

theorem count_cacheKeys_upsert_self (c : List AnswerCacheEntry) (f : Nat)
    (l : Char) (h : (cacheKeys c).Nodup) :
    (cacheKeys (upsert c f l)).count f = 1 :=
  List.count_eq_one_of_mem (nodup_cacheKeys_upsert c f l h)
    ((mem_cacheKeys_upsert c f l f).mpr (Or.inr rfl))

theorem nodup_cacheKeys_applyUpserts (ops : List (Nat × Char)) :
    ∀ c : List AnswerCacheEntry, (cacheKeys c).Nodup →
      (cacheKeys (applyUpserts c ops)).Nodup := by
  induction ops with
  | nil => intro c h; simpa [applyUpserts] using h
  | cons op ops ih =>
    intro c h
    exact ih _ (nodup_cacheKeys_upsert c op.1 op.2 h)

theorem lookup_applyUpserts_avoid (ops : List (Nat × Char)) (f : Nat)
    (havoid : ∀ p ∈ ops, p.1 ≠ f) :
    ∀ c : List AnswerCacheEntry, lookup (applyUpserts c ops) f = lookup c f := by
  induction ops with
  | nil => intro c; simp [applyUpserts]
  | cons op ops ih =>
    intro c
    have h1 : op.1 ≠ f := havoid op (by simp)
    have h2 : ∀ p ∈ ops, p.1 ≠ f := fun p hp => havoid p (by simp [hp])
    rw [applyUpserts, ih h2, lookup_upsert_ne _ _ _ _ (Ne.symm h1)]

/-! ## AnswerExtractor

Modelled from the spec (§4.3): ordered strategies over the assistant's
reply text, first match wins, result uppercased, "no match" (here `none`)
iff none of the four strategies fire. -/

/-- True when the next character, if any, is not a letter (a token
boundary). -/
def boundaryOk : List Char → Bool
  | [] => true
  | d :: _ => !d.isAlpha

/-- After a marker: skip spaces, then accept a single letter bounded on the
right by a non-letter (or the end of the text). -/
def letterAfter (cs : List Char) : Option Char :=
  match cs.dropWhile (fun c => c = ' ') with
  | [] => none
  | c :: rest => if c.isAlpha && boundaryOk rest then some c else none

/-- Case-insensitive check that `pat` (already lowercase) begins `cs`. -/
def startsWithLower : List Char → List Char → Bool
  | [], _ => true
  | _ :: _, [] => false
  | p :: ps, c :: cs => p = c.toLower && startsWithLower ps cs

/-- Modelled from the spec: strategy 1 — explicit pattern `Answer:` or
`answer is` (case-insensitive) followed by a single letter. -/
def strat1 : List Char → Option Char
  | [] => none
  | c :: cs =>
    if startsWithLower "answer:".data (c :: cs) then
      match letterAfter ((c :: cs).drop 7) with
      | some l => some l
      | none => strat1 cs
    else if startsWithLower "answer is".data (c :: cs) then
      match letterAfter ((c :: cs).drop 9) with
      | some l => some l
      | none => strat1 cs
    else strat1 cs

/-- Modelled from the spec: strategy 2 — a line consisting solely of one
letter (up to surrounding whitespace). -/
def strat2 (cs : List Char) : Option Char :=
  (splitLines cs).findSome? (fun line =>
    match trimChars line with
    | [c] => if c.isAlpha then some c else none
    | _ => none)

/-- Modelled from the spec: strategy 3 — a single letter at the very end of
the text (ignoring trailing whitespace). -/
def strat3 (cs : List Char) : Option Char :=
  match (trimChars cs).reverse with
  | [] => none
  | c :: rest =>
    if c.isAlpha && boundaryOk rest then some c else none

/-- Modelled from the spec: strategy 4 — any standalone letter token bounded
by non-letter characters (or the ends of the text). -/
def strat4Aux (prev : Option Char) : List Char → Option Char
  | [] => none
  | c :: cs =>
    if c.isAlpha && boundaryOk cs &&
        (match prev with | none => true | some d => !d.isAlpha) then
      some c
    else strat4Aux (some c) cs

/-- Strategy 4 entry point. -/
def strat4 (cs : List Char) : Option Char :=
  strat4Aux none cs

/-- Modelled from the spec: the first strategy that fires, in priority
order 1, 2, 3, 4. -/
def stratFirst (cs : List Char) : Option Char :=
  match strat1 cs with
  | some c => some c
  | none =>
    match strat2 cs with
    | some c => some c
    | none =>
      match strat3 cs with
      | some c => some c
      | none => strat4 cs

/-- Modelled from the spec: the AnswerExtractor — apply the four strategies
in order, first match wins, result uppercased; `none` means "no match". -/
def extractAnswer (s : String) : Option Char :=
  match strat1 s.data with
  | some c => some c.toUpper
  | none =>
    match strat2 s.data with
    | some c => some c.toUpper
    | none =>
      match strat3 s.data with
      | some c => some c.toUpper
      | none => (strat4 s.data).map Char.toUpper

theorem extractAnswer_eq_stratFirst (s : String) :
    extractAnswer s = (stratFirst s.data).map Char.toUpper := by
  unfold extractAnswer stratFirst
  cases h1 : strat1 s.data with
  | some c => rfl
  | none =>
    cases h2 : strat2 s.data with
    | some c => rfl
    | none =>
      cases h3 : strat3 s.data with
      | some c => rfl
      | none => rfl

/-! ## AnswerResolver — single call

Modelled from the spec (§4.4): `resolve(quizMessage, account) -> letter`.
The assistant collaborator is abstracted by the `reply` oracle: `none`
stands for a timeout past the 20-second deadline or a send failure, and
`some r` for a reply text `r` that arrived in time.  Effects on external
collaborators are recorded in an explicit trace. -/

/-- Modelled from the spec: the fixed fallback letter `B`. -/
def fallbackLetter : Char := 'B'

structure ResolverState where
  cache : List AnswerCacheEntry
  tickets : List Nat
  deriving Repr

inductive ResolveEffect
  | ticketCreate (fp : Nat)
  | assistantSend (fp : Nat)
  | cacheUpsert (fp : Nat) (letter : Char)
  | ticketRelease (fp : Nat)
  deriving DecidableEq, Repr

/-- Modelled from the spec: one uncontended `resolve` call.  Cache hit
returns the cached letter at once, with no effect on the outside world;
on a miss the caller becomes ticket owner, sends the question to the
assistant, extracts the reply (falling back to `B` on timeout, send
failure or extraction failure), upserts the result and releases the
ticket. -/
def resolve (st : ResolverState) (text : String) (reply : Option String) :
    Char × ResolverState × List ResolveEffect :=
  let fp := fingerprint text
  match lookup st.cache fp with
  | some l => (l, st, [])
  | none =>
    let result :=
      match reply with
      | none => fallbackLetter
      | some r =>
        match extractAnswer r with
        | some c => c
        | none => fallbackLetter
    (result,
     { cache := upsert st.cache fp result, tickets := st.tickets },
     [ResolveEffect.ticketCreate fp, ResolveEffect.assistantSend fp,
      ResolveEffect.cacheUpsert fp result, ResolveEffect.ticketRelease fp])

/-! ## QuizDetector

Modelled from the spec (§4.2): returns a QuizMessage only if the sender id
matches the configured quiz source id and the text matches a recognized
quiz shape (question followed by lettered options); otherwise "not a
quiz".  The source id 7901924377 is the Quiz Bot ID from the Quiz-Bot
README ("Detection: Identifies quiz messages from bot ID 7901924377"). -/

/-- Quiz source id from the Quiz-Bot README configuration. -/
def quizSourceId : Nat := 7901924377

structure InboundMessage where
  senderId : Nat
  text : String
  deriving Repr

structure QuizMessage where
  senderId : Nat
  text : String
  deriving DecidableEq, Repr

/-- Modelled from the spec: a lettered option line — an A–D letter followed
by a delimiter. -/
def isOptionLine (l : List Char) : Bool :=
  match trimChars l with
  | c :: d :: _ =>
    (c.toUpper = 'A' || c.toUpper = 'B' || c.toUpper = 'C' || c.toUpper = 'D')
      && (d = ')' || d = '.' || d = ':')
  | _ => false

/-- Modelled from the spec: the recognized quiz shape — a question line
followed by lettered options. -/
def isQuizShape (s : String) : Bool :=
  match (splitLines s.data).filter (fun l => !(trimChars l).isEmpty) with
  | [] => false
  | q :: opts => !isOptionLine q && !opts.isEmpty && opts.all isOptionLine

/-- Modelled from the spec: the QuizDetector.  A pure classifier: `none`
is "not a quiz" and carries no side effect and no retry. -/
def detectQuiz (m : InboundMessage) : Option QuizMessage :=
  if m.senderId = quizSourceId && isQuizShape m.text then
    some ⟨m.senderId, m.text⟩
  else none

/-! ## Concurrent resolution — single-flight ticketing

Modelled from the spec (§4.4 steps 2–7 and §5): several account tasks
resolve fingerprints concurrently; ticket creation is atomic ("exactly one
task becomes ticket owner per fingerprint even under simultaneous
attempts").  Each task is in one of the phases of the resolve algorithm;
the interleaving of atomic steps is a small-step relation on the shared
state.  `sends` logs every assistant query that has been issued. -/

inductive TaskPhase
  | start
  | owner
  | waiter
  | done
  deriving DecidableEq, Repr

structure SysTask where
  fp : Nat
  phase : TaskPhase
  deriving DecidableEq, Repr

structure SysState where
  cache : List AnswerCacheEntry
  tickets : List Nat
  tasks : List SysTask
  sends : List Nat
  deriving Repr

/-- Modelled from the spec: the atomic steps of concurrent resolution.
`Step i s s'` means task `i` moves the system from `s` to `s'`:
a cache hit finishes at once; on a miss the task atomically becomes
ticket owner (issuing the assistant send) when no ticket for its
fingerprint is live, and attaches as a waiter otherwise; the owner
completes by upserting, releasing the ticket and waking its waiters;
a waiter whose deadline elapses falls back independently. -/
inductive Step : Nat → SysState → SysState → Prop
  | cacheHit (i : Nat) (s : SysState) (t : SysTask) (l : Char)
      (hget : s.tasks.get? i = some t) (hphase : t.phase = TaskPhase.start)
      (hhit : lookup s.cache t.fp = some l) :
      Step i s { s with tasks := s.tasks.set i { t with phase := TaskPhase.done } }
  | acquire (i : Nat) (s : SysState) (t : SysTask)
      (hget : s.tasks.get? i = some t) (hphase : t.phase = TaskPhase.start)
      (hmiss : lookup s.cache t.fp = none) (hnotick : t.fp ∉ s.tickets) :
      Step i s { cache := s.cache, tickets := t.fp :: s.tickets,
                 tasks := s.tasks.set i { t with phase := TaskPhase.owner },
                 sends := t.fp :: s.sends }
  | attach (i : Nat) (s : SysState) (t : SysTask)
      (hget : s.tasks.get? i = some t) (hphase : t.phase = TaskPhase.start)
      (hmiss : lookup s.cache t.fp = none) (htick : t.fp ∈ s.tickets) :
      Step i s { s with tasks := s.tasks.set i { t with phase := TaskPhase.waiter } }
  | complete (i : Nat) (s : SysState) (t : SysTask) (result : Char)
      (hget : s.tasks.get? i = some t) (hphase : t.phase = TaskPhase.owner) :
      Step i s { cache := upsert s.cache t.fp result,
                 tickets := s.tickets.erase t.fp,
                 tasks := (s.tasks.set i { t with phase := TaskPhase.done }).map
                   (fun u =>
                     if u.fp = t.fp ∧ u.phase = TaskPhase.waiter then
                       { u with phase := TaskPhase.done }
                     else u),
                 sends := s.sends }
  | waiterFallback (i : Nat) (s : SysState) (t : SysTask)
      (hget : s.tasks.get? i = some t) (hphase : t.phase = TaskPhase.waiter) :
      Step i s { s with tasks := s.tasks.set i { t with phase := TaskPhase.done } }

/-- Some task takes a step. -/
def StepAny (s s' : SysState) : Prop := ∃ i, Step i s s'

/-- Reachability under interleaved task steps. -/
def Reach (s s' : SysState) : Prop := Relation.ReflTransGen StepAny s s'

/-- Whether the cache has an entry for a fingerprint. -/
def hasEntry (cache : List AnswerCacheEntry) (f : Nat) : Bool :=
  (lookup cache f).isSome

/-- The number of assistant sends issued so far for fingerprint `f`. -/
def countSends (s : SysState) (f : Nat) : Nat :=
  s.sends.count f

/-- Inductive invariant of the ticket system for a fixed fingerprint `f`:
tickets are unique; a live ticket and a cache entry for `f` never coexist;
the number of assistant sends for `f` is 1 exactly when a ticket is live
or an entry exists, and 0 before; and every task on `f` that has left its
start phase did so under a live ticket or an existing entry. -/
def InvF (f : Nat) (s : SysState) : Prop :=
  s.tickets.Nodup ∧
  ¬ (f ∈ s.tickets ∧ hasEntry s.cache f = true) ∧
  countSends s f = (if f ∈ s.tickets ∨ hasEntry s.cache f = true then 1 else 0) ∧
  ∀ t ∈ s.tasks, t.fp = f → t.phase ≠ TaskPhase.start →
    (f ∈ s.tickets ∨ hasEntry s.cache f = true)

theorem hasEntry_upsert_self (c : List AnswerCacheEntry) (f : Nat) (l : Char) :
    hasEntry (upsert c f l) f = true := by
  simp [hasEntry, lookup_upsert_self]

theorem hasEntry_upsert_ne (c : List AnswerCacheEntry) (f f' : Nat) (l : Char)
    (h : f' ≠ f) : hasEntry (upsert c f l) f' = hasEntry c f' := by
  simp [hasEntry, lookup_upsert_ne c f f' l h]

theorem invF_step (f : Nat) (i : Nat) (s s' : SysState)
    (hinv : InvF f s) (hstep : Step i s s') : InvF f s' := by
  obtain ⟨hnodup, hnocoex, hcount, htasks⟩ := hinv
  cases hstep with
  | cacheHit t l hget hphase hhit =>
    refine ⟨hnodup, hnocoex, hcount, ?_⟩
    intro t' ht' htfp htph
    rcases List.mem_or_eq_of_mem_set ht' with hmem | rfl
    · exact htasks t' hmem htfp htph
    · by_cases hf : t.fp = f
      · right
        simp only [hasEntry]
        rw [← hf, hhit]
        rfl
      · exact absurd htfp hf
  | acquire t hget hphase hmiss hnotick =>
    have hEntF : hasEntry s.cache t.fp = false := by
      simp [hasEntry, hmiss]
    constructor
    · exact List.nodup_cons.mpr ⟨hnotick, hnodup⟩
    constructor
    · rintro ⟨hmem, hent⟩
      rcases List.mem_cons.mp hmem with rfl | hmem
      · rw [hEntF] at hent; exact Bool.false_ne_true hent
      · exact hnocoex ⟨hmem, hent⟩
    constructor
    · show (t.fp :: s.sends).count f = _
      by_cases hf : t.fp = f
      · subst hf
        have h0 : countSends s t.fp = 0 := by
          rw [hcount]
          simp [hnotick, hEntF]
        simp only [List.count_cons, beq_self_eq_true, if_true]
        rw [show s.sends.count t.fp = countSends s t.fp from rfl, h0]
        simp [List.mem_cons]
      · have : (t.fp :: s.sends).count f = s.sends.count f := by
          simp [List.count_cons, hf]
        rw [this]
        rw [show s.sends.count f = countSends s f from rfl, hcount]
        have : (f ∈ t.fp :: s.tickets) ↔ (f ∈ s.tickets) := by
          simp [List.mem_cons, Ne.symm hf]
        simp only [this]
    · intro t' ht' htfp htph
      rcases List.mem_or_eq_of_mem_set ht' with hmem | rfl
      · rcases htasks t' hmem htfp htph with hmem2 | hent
        · exact Or.inl (List.mem_cons_of_mem _ hmem2)
        · exact Or.inr hent
      · left
        rw [← htfp]
        exact List.mem_cons_self _ _
  | attach t hget hphase hmiss htick =>
    refine ⟨hnodup, hnocoex, hcount, ?_⟩
    intro t' ht' htfp htph
    rcases List.mem_or_eq_of_mem_set ht' with hmem | rfl
    · exact htasks t' hmem htfp htph
    · left
      rw [← htfp]
      exact htick
  | complete t result hget hphase =>
    have htmem : t ∈ s.tasks := List.get?_mem hget
    constructor
    · exact List.Nodup.erase _ hnodup
    constructor
    · rintro ⟨hmem, hent⟩
      by_cases hf : f = t.fp
      · subst hf
        exact ((List.Nodup.mem_erase_iff hnodup).mp hmem).1 rfl
      · rw [hasEntry_upsert_ne _ _ _ _ hf] at hent
        exact hnocoex ⟨List.mem_of_mem_erase hmem, hent⟩
    constructor
    · show s.sends.count f = _
      by_cases hf : f = t.fp
      · subst hf
        have h1 : t.fp ∈ s.tickets ∨ hasEntry s.cache t.fp = true :=
          htasks t htmem rfl (by rw [hphase]; intro h; cases h)
        have h2 : countSends s t.fp = 1 := by rw [hcount]; simp [h1]
        rw [show s.sends.count t.fp = countSends s t.fp from rfl, h2]
        simp [hasEntry_upsert_self]
      · rw [show s.sends.count f = countSends s f from rfl, hcount]
        have hmemiff : (f ∈ s.tickets.erase t.fp) ↔ (f ∈ s.tickets) :=
          List.mem_erase_of_ne hf
        rw [hasEntry_upsert_ne _ _ _ _ hf]
        simp only [hmemiff]
    · intro t' ht' htfp htph
      by_cases hf : f = t.fp
      · subst hf
        right
        exact hasEntry_upsert_self _ _ _
      · rw [hasEntry_upsert_ne _ _ _ _ hf]
        rcases List.mem_map.mp ht' with ⟨u, humem, hueq⟩
        have hufp : u.fp = f := by
          by_cases hcond : u.fp = t.fp ∧ u.phase = TaskPhase.waiter
          · rw [← hueq, if_pos hcond] at htfp
            exact htfp
          · rw [← hueq, if_neg hcond] at htfp
            exact htfp
      -- `u` cannot be the completed owner copy, since its fingerprint is `t.fp ≠ f`
        rcases List.mem_or_eq_of_mem_set humem with humem2 | rfl
        · have huph : u.phase ≠ TaskPhase.start := by
            intro hstart
            by_cases hcond : u.fp = t.fp ∧ u.phase = TaskPhase.waiter
            · rw [hstart] at hcond
              exact TaskPhase.noConfusion hcond.2
            · rw [← hueq, if_neg hcond] at htph
              exact htph hstart
          rcases htasks u humem2 hufp huph with hmem3 | hent3
          · exact Or.inl ((List.mem_erase_of_ne hf).mpr hmem3)
          · exact Or.inr hent3
        · exact absurd hufp.symm hf
  | waiterFallback t hget hphase =>
    refine ⟨hnodup, hnocoex, hcount, ?_⟩
    intro t' ht' htfp htph
    rcases List.mem_or_eq_of_mem_set ht' with hmem | rfl
    · exact htasks t' hmem htfp htph
    · exact htasks t (List.get?_mem hget) htfp (by rw [hphase]; intro h; cases h)

theorem invF_reach (f : Nat) (s₀ s : SysState)
    (hinv : InvF f s₀) (hreach : Reach s₀ s) : InvF f s := by
  induction hreach with
  | refl => exact hinv
  | tail _ hstep ih =>
    obtain ⟨i, hstep⟩ := hstep
    exact invF_step f i _ _ ih hstep

theorem step_start_with_ticket_attaches (f i : Nat) (s s' : SysState)
    (hinv : InvF f s) (hstep : Step i s s')
    (hgeti : s.tasks.get? i = some ⟨f, TaskPhase.start⟩) (htick : f ∈ s.tickets) :
    s'.tasks.get? i = some ⟨f, TaskPhase.waiter⟩ ∧ s'.sends = s.sends := by
  obtain ⟨hnodup, hnocoex, hcount, htasks⟩ := hinv
  cases hstep with
  | cacheHit t l hget hphase hhit =>
    rw [hgeti] at hget
    injection hget with hteq
    rw [← hteq] at hhit
    exact absurd ⟨htick, by simp [hasEntry, hhit]⟩ hnocoex
  | acquire t hget hphase hmiss hnotick =>
    rw [hgeti] at hget
    injection hget with hteq
    rw [← hteq] at hnotick
    exact absurd htick hnotick
  | attach t hget hphase hmiss htick2 =>
    rw [hgeti] at hget
    injection hget with hteq
    constructor
    · rw [List.get?_set_eq, hgeti, ← hteq]
      rfl
    · rfl
  | complete t result hget hphase =>
    rw [hgeti] at hget
    injection hget with hteq
    rw [← hteq] at hphase
    exact TaskPhase.noConfusion hphase
  | waiterFallback t hget hphase =>
    rw [hgeti] at hget
    injection hget with hteq
    rw [← hteq] at hphase
    exact TaskPhase.noConfusion hphase

/-- Claim C1: for a fingerprint `f` with no AnswerCache entry, under any
interleaving of concurrently resolving tasks at most one ResolutionTicket
per fingerprint exists at any time (the ticket list stays duplicate-free),
at most one assistant send is ever issued for `f` — exactly one once any
resolve for `f` has progressed past its start phase — and while a ticket
for `f` is live a start-phase resolve for `f` can only attach as a waiter,
issuing no assistant query. -/
theorem single_flight_dedup (f : Nat) (s₀ : SysState)
    (hnodup : s₀.tickets.Nodup)
    (hnotick : f ∉ s₀.tickets)
    (hnoentry : lookup s₀.cache f = none)
    (hnosend : countSends s₀ f = 0)
    (hstart : ∀ t ∈ s₀.tasks, t.fp = f → t.phase = TaskPhase.start) :
    ∀ s, Reach s₀ s →
      s.tickets.Nodup ∧
      countSends s f ≤ 1 ∧
      (∀ t ∈ s.tasks, t.fp = f → t.phase ≠ TaskPhase.start →
        countSends s f = 1) ∧
      (∀ i s', Step i s s' → s.tasks.get? i = some ⟨f, TaskPhase.start⟩ →
        f ∈ s.tickets →
        s'.tasks.get? i = some ⟨f, TaskPhase.waiter⟩ ∧ s'.sends = s.sends) := by
  have hinv0 : InvF f s₀ := by
    refine ⟨hnodup, ?_, ?_, ?_⟩
    · rintro ⟨hmem, _⟩
      exact hnotick hmem
    · rw [hnosend]
      have : hasEntry s₀.cache f = false := by simp [hasEntry, hnoentry]
      simp [hnotick, this]
    · intro t ht htf htph
      exact absurd (hstart t ht htf) htph
  intro s hreach
  have hinv := invF_reach f s₀ s hinv0 hreach
  obtain ⟨h1, h2, h3, h4⟩ := hinv
  refine ⟨h1, ?_, ?_, ?_⟩
  · rw [h3]
    split <;> simp
  · intro t ht htf htph
    rcases h4 t ht htf htph with hmem | hent
    · rw [h3]; simp [hmem]
    · rw [h3]; simp [hent]
  · intro i s' hstep hget htick
    exact step_start_with_ticket_attaches f i s s' ⟨h1, h2, h3, h4⟩ hstep hget htick

/-- Witness for C1: a concrete initial state with two tasks racing on the
same fingerprint satisfies the hypotheses, and the theorem applies. -/
theorem single_flight_dedup_witness :
    (SysState.mk [] [] [⟨7, TaskPhase.start⟩, ⟨7, TaskPhase.start⟩] []).tickets.Nodup ∧
    countSends (SysState.mk [] [] [⟨7, TaskPhase.start⟩, ⟨7, TaskPhase.start⟩] []) 7 ≤ 1 :=
  have h := single_flight_dedup 7
    (SysState.mk [] [] [⟨7, TaskPhase.start⟩, ⟨7, TaskPhase.start⟩] [])
    List.nodup_nil (by simp) rfl rfl (by decide)
    (SysState.mk [] [] [⟨7, TaskPhase.start⟩, ⟨7, TaskPhase.start⟩] [])
    Relation.ReflTransGen.refl
  ⟨h.1, h.2.1⟩

/-! ## Checkout endpoint

Embedded from `pages/api/orders/checkout.js` (prices are modelled as
integers; Supabase tables as lists of rows; the event trace records the
database writes and the Stripe call in program order). -/

structure Cart where
  id : Nat
  user_id : Nat
  deriving DecidableEq, Repr

structure CartItem where
  id : Nat
  cart_id : Nat
  product_id : Nat
  quantity : Nat
  deriving DecidableEq, Repr

structure Product where
  id : Nat
  price : Int
  deriving DecidableEq, Repr

structure Order where
  id : Nat
  user_id : Nat
  total : Int
  status : String
  deriving DecidableEq, Repr

structure OrderItem where
  order_id : Nat
  product_id : Nat
  quantity : Nat
  price : Int
  deriving DecidableEq, Repr

structure StoreDB where
  carts : List Cart
  cart_items : List CartItem
  products : List Product
  orders : List Order
  order_items : List OrderItem
  deriving Repr

inductive DbEvent
  | insertOrder (orderId : Nat)
  | insertOrderItem (orderId productId : Nat)
  | deleteCartItems (cartId : Nat)
  | createPaymentIntent (orderId : Nat)
  | updateOrderStatus (orderId : Nat) (status : String)
  deriving DecidableEq, Repr

inductive CheckoutResult
  | badRequest (msg : String)
  | ok (orderId : Nat) (total : Int)
  deriving DecidableEq, Repr

/-- The join `cart_items.select('*, products(*)').eq('cart_id', ...)`;
`none` when some item references a missing product (the JavaScript would
then throw on the later field accesses and reach the catch block). -/
def joinItems (db : StoreDB) (cartId : Nat) :
    Option (List (CartItem × Product)) :=
  (db.cart_items.filter (fun it => it.cart_id = cartId)).mapM
    (fun it =>
      (db.products.find? (fun p => p.id = it.product_id)).map (fun p => (it, p)))

/-- Quantity as the handler computes it: `parseInt(it.quantity || 1)`. -/
def itemQty (it : CartItem) : Nat :=
  if it.quantity = 0 then 1 else it.quantity

/-- Embedded from `pages/api/orders/checkout.js`: find the caller's cart
(400 when absent), read the cart's items, insert the order and its order
items, delete the cart's items, then the Stripe payment-intent step (only
when a Stripe key is configured) and the final order-status update. -/
def checkout (db : StoreDB) (userId : Nat) (hasStripeKey : Bool)
    (newOrderId : Nat) : CheckoutResult × StoreDB × List DbEvent :=
  match db.carts.find? (fun c => c.user_id = userId) with
  | none => (.badRequest "Cart empty", db, [])
  | some cart =>
    match joinItems db cart.id with
    | none => (.badRequest "invalid token", db, [])
    | some pairs =>
      let total : Int :=
        pairs.foldl (fun acc pr => acc + pr.2.price * (itemQty pr.1 : Int)) 0
      let orderItems : List OrderItem := pairs.map (fun pr =>
        { order_id := newOrderId, product_id := pr.2.id,
          quantity := itemQty pr.1, price := pr.2.price })
      let finalStatus := if hasStripeKey then "pending" else "paid"
      let order : Order :=
        { id := newOrderId, user_id := userId, total := total,
          status := finalStatus }
      let events :=
        DbEvent.insertOrder newOrderId ::
          (orderItems.map
              (fun oi => DbEvent.insertOrderItem oi.order_id oi.product_id) ++
            (DbEvent.deleteCartItems cart.id ::
              ((if hasStripeKey then [DbEvent.createPaymentIntent newOrderId]
                else []) ++
                [DbEvent.updateOrderStatus newOrderId finalStatus])))
      (.ok newOrderId total,
       { db with
          orders := db.orders ++ [order],
          order_items := db.order_items ++ orderItems,
          cart_items := db.cart_items.filter (fun it => ¬ it.cart_id = cart.id) },
       events)

/-! ## Login endpoints

Embedded from the login handler bundled in `pages/api/orders/all.js`
(Next.js + Supabase) and from `app.post('/login')` of the Express backend
(unnamed part_009).  `cmp` models `bcrypt.compare`, `sign` models JWT
signing; the response is the observable status code and body. -/

structure ApiResp where
  status : Nat
  body : String
  deriving DecidableEq, Repr

structure WebUser where
  id : Nat
  username : String
  email : String
  password : String
  is_admin : Bool
  deriving DecidableEq, Repr

/-- Embedded from the Supabase login handler in `pages/api/orders/all.js`. -/
def nextLoginHandler (users : List WebUser) (cmp : String → String → Bool)
    (sign : WebUser → String) (email password : String) : ApiResp :=
  if email = "" ∨ password = "" then ⟨400, "email and password required"⟩
  else
    match users.find? (fun u => u.email = email) with
    | none => ⟨401, "invalid credentials"⟩
    | some u =>
      if cmp password u.password then ⟨200, "token " ++ sign u⟩
      else ⟨401, "invalid credentials"⟩

structure MongoUser where
  fullname : String
  email : String
  password : String
  deriving DecidableEq, Repr

/-- ASCII lowercasing of a whole string (`email.toLowerCase()`). -/
def toLowerStr (s : String) : String := ⟨s.data.map Char.toLower⟩

/-- Embedded from `app.post('/login')` in the Express backend: the email is
lowercased before the user lookup. -/
def expressLoginHandler (users : List MongoUser)
    (cmp : String → String → Bool) (email password : String) : ApiResp :=
  if email = "" ∨ password = "" then ⟨400, "Missing email or password"⟩
  else
    match users.find? (fun u => u.email = toLowerStr email) with
    | none => ⟨401, "Invalid credentials. Access denied."⟩
    | some u =>
      if cmp password u.password then
        ⟨200, "Authentication successful. Welcome, Agent. " ++ u.fullname⟩
      else ⟨401, "Invalid credentials. Access denied."⟩

/-! ## Claim theorems -/

theorem stratFirst_eq_none (cs : List Char) :
    stratFirst cs = none ↔
      strat1 cs = none ∧ strat2 cs = none ∧ strat3 cs = none ∧
        strat4 cs = none := by
  unfold stratFirst
  cases h1 : strat1 cs <;> cases h2 : strat2 cs <;> cases h3 : strat3 cs <;>
    simp [h1, h2, h3]

/-- Claim C2: when the assistant gives no usable reply — `reply = none`
models a timeout past the 20-second deadline or a send failure, and a
reply from which no letter can be extracted is equally unusable — the
resolver returns the fixed fallback letter `B` and the AnswerCache is
updated with `B` for that fingerprint. -/
theorem resolve_timeout_fallback (st : ResolverState) (text : String)
    (reply : Option String)
    (hmiss : lookup st.cache (fingerprint text) = none)
    (hnouse : reply = none ∨ ∃ r, reply = some r ∧ extractAnswer r = none) :
    (resolve st text reply).1 = 'B' ∧
    lookup (resolve st text reply).2.1.cache (fingerprint text) = some 'B' := by
  rcases hnouse with rfl | ⟨r, rfl, hex⟩
  · simp [resolve, hmiss, fallbackLetter, lookup_upsert_self]
  · simp [resolve, hmiss, hex, fallbackLetter, lookup_upsert_self]

/-- Witness for C2: an empty cache and a silent assistant. -/
theorem resolve_timeout_fallback_witness :
    (resolve ⟨[], []⟩ "Q1" none).1 = 'B' ∧
    lookup (resolve ⟨[], []⟩ "Q1" none).2.1.cache (fingerprint "Q1") =
      some 'B' :=
  resolve_timeout_fallback ⟨[], []⟩ "Q1" none rfl (Or.inl rfl)

/-- Claim C3: the AnswerExtractor applies exactly the four strategies in
fixed priority order — explicit Answer-pattern, single-letter line, single
letter at the very end, standalone letter token — the first matching
strategy determines the result, the returned letter is uppercased, and "no
match" (`none`) is returned iff none of the four strategies fires. -/
theorem extractAnswer_strategy_order (r : String) :
    extractAnswer r = (stratFirst r.data).map Char.toUpper ∧
    (∀ c, strat1 r.data = some c → extractAnswer r = some c.toUpper) ∧
    (∀ c, strat1 r.data = none → strat2 r.data = some c →
      extractAnswer r = some c.toUpper) ∧
    (∀ c, strat1 r.data = none → strat2 r.data = none →
      strat3 r.data = some c → extractAnswer r = some c.toUpper) ∧
    (∀ c, strat1 r.data = none → strat2 r.data = none →
      strat3 r.data = none → strat4 r.data = some c →
      extractAnswer r = some c.toUpper) ∧
    (extractAnswer r = none ↔
      strat1 r.data = none ∧ strat2 r.data = none ∧ strat3 r.data = none ∧
        strat4 r.data = none) := by
  refine ⟨extractAnswer_eq_stratFirst r, ?_, ?_, ?_, ?_, ?_⟩
  · intro c h1
    simp [extractAnswer, h1]
  · intro c h1 h2
    simp [extractAnswer, h1, h2]
  · intro c h1 h2 h3
    simp [extractAnswer, h1, h2, h3]
  · intro c h1 h2 h3 h4
    simp [extractAnswer, h1, h2, h3, h4]
  · rw [extractAnswer_eq_stratFirst, Option.map_eq_none', stratFirst_eq_none]

/-- Witness for C3: strategy 1 fires on `"Answer: B"` and determines the
uppercased result. -/
theorem extractAnswer_strategy_order_witness :
    strat1 "Answer: B".data = some 'B' ∧
    extractAnswer "Answer: B" = some ('B'.toUpper) :=
  ⟨by decide, (extractAnswer_strategy_order "Answer: B").2.1 'B' (by decide)⟩

/-- Claim C4: the question fingerprint is invariant under case and
whitespace differences: texts that agree after case-folding and
whitespace-collapsing get the same fingerprint (the fingerprint function
takes no account argument, so the observing account cannot influence it);
in particular `fingerprint "What is X?" = fingerprint "what is x?  "`. -/
theorem fingerprint_normalization_invariant (a b : String)
    (h : wsCollapse (caseFold a.data) = wsCollapse (caseFold b.data)) :
    fingerprint a = fingerprint b ∧
    fingerprint "What is X?" = fingerprint "what is x?  " := by
  constructor
  · unfold fingerprint normalizeText
    rw [h]
  · decide

/-- Witness for C4: the spec's concrete pair satisfies the hypothesis. -/
theorem fingerprint_normalization_invariant_witness :
    wsCollapse (caseFold "What is X?".data) =
      wsCollapse (caseFold "what is x?  ".data) ∧
    fingerprint "What is X?" = fingerprint "what is x?  " :=
  ⟨by decide,
   (fingerprint_normalization_invariant "What is X?" "what is x?  "
      (by decide)).1⟩

/-- Claim C5: for every fingerprint the cache holds at most one entry
(the key list stays duplicate-free under any sequence of upserts, and
after an upsert the key occurs exactly once), and repeating
`upsert f l` leaves the single entry for `f` with letter `l` unchanged
while incrementing its hit count on each repeat. -/
theorem cache_upsert_invariant (c : List AnswerCacheEntry) (f : Nat)
    (l : Char) (h : (cacheKeys c).Nodup) :
    (cacheKeys (upsert c f l)).Nodup ∧
    (cacheKeys (upsert c f l)).count f = 1 ∧
    lookup (upsert c f l) f = some l ∧
    lookup (upsert (upsert c f l) f l) f = some l ∧
    hits (upsert c f l) f = hits c f + 1 ∧
    hits (upsert (upsert c f l) f l) f = hits c f + 2 ∧
    ∀ ops : List (Nat × Char), (cacheKeys (applyUpserts c ops)).Nodup := by
  refine ⟨nodup_cacheKeys_upsert c f l h, count_cacheKeys_upsert_self c f l h,
    lookup_upsert_self c f l, lookup_upsert_self _ f l,
    hits_upsert_self c f l, ?_, fun ops => nodup_cacheKeys_applyUpserts ops c h⟩
  rw [hits_upsert_self, hits_upsert_self]

/-- Witness for C5: repeated upsert on the empty cache. -/
theorem cache_upsert_invariant_witness :
    (cacheKeys (upsert [] 5 'C')).count 5 = 1 ∧
    hits (upsert (upsert [] 5 'C') 5 'C') 5 = hits [] 5 + 2 :=
  have h := cache_upsert_invariant [] 5 'C' List.nodup_nil
  ⟨h.2.1, h.2.2.2.2.2.1⟩

/-- Claim C6: cache round-trip — after `upsert f l`, any sequence of
further upserts that avoids `f` leaves `lookup f = some l`; and looking up
a fingerprint never upserted (any upsert sequence avoiding `f`, starting
from the empty cache) yields a miss. -/
theorem cache_roundtrip (c : List AnswerCacheEntry) (f : Nat) (l : Char)
    (ops : List (Nat × Char)) (h : ∀ p ∈ ops, p.1 ≠ f) :
    lookup (applyUpserts (upsert c f l) ops) f = some l ∧
    lookup (applyUpserts [] ops) f = none := by
  constructor
  · rw [lookup_applyUpserts_avoid ops f h, lookup_upsert_self]
  · rw [lookup_applyUpserts_avoid ops f h]
    rfl

/-- Witness for C6: `upsert(f, C); lookup(f) == C` with an unrelated
upsert in between, and a miss for the never-upserted fingerprint. -/
theorem cache_roundtrip_witness :
    lookup (applyUpserts (upsert [] 3 'C') [(4, 'A')]) 3 = some 'C' ∧
    lookup (applyUpserts [] [(4, 'A')]) 3 = none :=
  cache_roundtrip [] 3 'C' [(4, 'A')] (by decide)

/-- Claim C7: when `resolve` finds a cache entry for the fingerprint of the
question text it returns the cached letter immediately — the state is
unchanged and the effect trace is empty, so no assistant call is made and
no ResolutionTicket is created. -/
theorem resolve_cache_hit (st : ResolverState) (text : String)
    (reply : Option String) (l : Char)
    (hhit : lookup st.cache (fingerprint text) = some l) :
    resolve st text reply = (l, st, []) := by
  simp [resolve, hhit]

/-- Witness for C7: a cache holding `C` for the question's fingerprint. -/
theorem resolve_cache_hit_witness :
    resolve ⟨[⟨fingerprint "Q", 'C', 1⟩], []⟩ "Q" none =
      ('C', ⟨[⟨fingerprint "Q", 'C', 1⟩], []⟩, []) :=
  resolve_cache_hit ⟨[⟨fingerprint "Q", 'C', 1⟩], []⟩ "Q" none 'C'
    (by simp [lookup, List.find?])

/-- Claim C8: the QuizDetector returns a QuizMessage iff the sender id
equals the configured quiz source id and the text matches the recognized
quiz shape (question followed by lettered options); for every other
message — malformed or partially matching included — it returns "not a
quiz" (`none`).  The detector is a pure function, so it has no side
effects and performs no retry. -/
theorem detectQuiz_contract (m : InboundMessage) :
    ((detectQuiz m).isSome = true ↔
      (m.senderId = quizSourceId ∧ isQuizShape m.text = true)) ∧
    (∀ q, detectQuiz m = some q → q = ⟨m.senderId, m.text⟩) ∧
    (¬ (m.senderId = quizSourceId ∧ isQuizShape m.text = true) →
      detectQuiz m = none) := by
  by_cases hs : m.senderId = quizSourceId <;>
    by_cases hq : isQuizShape m.text = true <;>
      constructor <;> try constructor
  all_goals
    simp_all [detectQuiz]

/-- Witness for C8: a well-shaped quiz from the quiz bot id is detected;
an unrelated message is not. -/
theorem detectQuiz_contract_witness :
    (detectQuiz ⟨7901924377, "What is 2+2?\nA) 3\nB) 4"⟩).isSome = true ∧
    detectQuiz ⟨1, "hello"⟩ = none :=
  ⟨(detectQuiz_contract ⟨7901924377, "What is 2+2?\nA) 3\nB) 4"⟩).1.mpr
      ⟨rfl, by decide⟩,
   (detectQuiz_contract ⟨1, "hello"⟩).2.2 (by decide)⟩

/-- Claim C9: every successful checkout that finds a cart for the caller
deletes all cart_items rows of that cart unconditionally — the delete
comes after the order and order-item inserts and before the payment-intent
call and the final status update — while cart_items rows belonging to
other carts are unchanged. -/
theorem checkout_clears_cart (db : StoreDB) (userId : Nat)
    (hasStripeKey : Bool) (newOrderId : Nat) (cart : Cart)
    (pairs : List (CartItem × Product))
    (hcart : db.carts.find? (fun c => c.user_id = userId) = some cart)
    (hjoin : joinItems db cart.id = some pairs) :
    (checkout db userId hasStripeKey newOrderId).2.1.cart_items =
      db.cart_items.filter (fun it => ¬ it.cart_id = cart.id) ∧
    (∀ it ∈ (checkout db userId hasStripeKey newOrderId).2.1.cart_items,
      ¬ it.cart_id = cart.id) ∧
    (∀ it ∈ db.cart_items, ¬ it.cart_id = cart.id →
      it ∈ (checkout db userId hasStripeKey newOrderId).2.1.cart_items) ∧
    (∃ pre post,
      (checkout db userId hasStripeKey newOrderId).2.2 =
        pre ++ DbEvent.deleteCartItems cart.id :: post ∧
      DbEvent.insertOrder newOrderId ∈ pre ∧
      (∀ e ∈ pre, e = DbEvent.insertOrder newOrderId ∨
        ∃ pid, e = DbEvent.insertOrderItem newOrderId pid) ∧
      (∀ e ∈ post, e = DbEvent.createPaymentIntent newOrderId ∨
        ∃ st, e = DbEvent.updateOrderStatus newOrderId st)) := by
  have hck : checkout db userId hasStripeKey newOrderId =
      (CheckoutResult.ok newOrderId
        (pairs.foldl (fun acc pr => acc + pr.2.price * (itemQty pr.1 : Int)) 0),
       { db with
          orders := db.orders ++
            [{ id := newOrderId, user_id := userId,
               total := pairs.foldl
                 (fun acc pr => acc + pr.2.price * (itemQty pr.1 : Int)) 0,
               status := if hasStripeKey then "pending" else "paid" }],
          order_items := db.order_items ++ pairs.map (fun pr =>
            { order_id := newOrderId, product_id := pr.2.id,
              quantity := itemQty pr.1, price := pr.2.price }),
          cart_items := db.cart_items.filter
            (fun it => ¬ it.cart_id = cart.id) },
       DbEvent.insertOrder newOrderId ::
         ((pairs.map (fun pr =>
             ({ order_id := newOrderId, product_id := pr.2.id,
                quantity := itemQty pr.1, price := pr.2.price } : OrderItem))).map
             (fun oi => DbEvent.insertOrderItem oi.order_id oi.product_id) ++
           (DbEvent.deleteCartItems cart.id ::
             ((if hasStripeKey then [DbEvent.createPaymentIntent newOrderId]
               else []) ++
               [DbEvent.updateOrderStatus newOrderId
                 (if hasStripeKey then "pending" else "paid")])))) := by
    unfold checkout
    simp only [hcart, hjoin]
  rw [hck]
  refine ⟨rfl, ?_, ?_, ?_⟩
  · intro it hmem
    have := (List.mem_filter.mp hmem).2
    simpa using this
  · intro it hmem hne
    exact List.mem_filter.mpr ⟨hmem, by simpa using hne⟩
  · refine ⟨DbEvent.insertOrder newOrderId ::
        (pairs.map (fun pr =>
          ({ order_id := newOrderId, product_id := pr.2.id,
             quantity := itemQty pr.1, price := pr.2.price } : OrderItem))).map
          (fun oi => DbEvent.insertOrderItem oi.order_id oi.product_id),
      (if hasStripeKey then [DbEvent.createPaymentIntent newOrderId]
        else []) ++
        [DbEvent.updateOrderStatus newOrderId
          (if hasStripeKey then "pending" else "paid")],
      by rw [List.cons_append], List.mem_cons_self _ _, ?_, ?_⟩
    · intro e he
      rcases List.mem_cons.mp he with rfl | hmap
      · exact Or.inl rfl
      · rcases List.mem_map.mp hmap with ⟨oi, hoi, rfl⟩
        rcases List.mem_map.mp hoi with ⟨pr, _, rfl⟩
        exact Or.inr ⟨pr.2.id, rfl⟩
    · intro e he
      rcases List.mem_append.mp he with hin | hupd
      · cases hasStripeKey with
        | false => simp at hin
        | true =>
          rw [if_pos rfl] at hin
          exact Or.inl (List.mem_singleton.mp hin)
      · exact Or.inr ⟨_, List.mem_singleton.mp hupd⟩

/-- Witness for C9: a store with one cart for user 10 holding one item,
plus an item belonging to another cart. -/
theorem checkout_clears_cart_witness :
    (checkout ⟨[⟨1, 10⟩], [⟨1, 1, 100, 2⟩, ⟨2, 2, 100, 1⟩], [⟨100, 5⟩], [], []⟩
        10 false 50).2.1.cart_items =
      ([⟨1, 1, 100, 2⟩, ⟨2, 2, 100, 1⟩] : List CartItem).filter
        (fun it => ¬ it.cart_id = (1 : Nat)) :=
  (checkout_clears_cart
      ⟨[⟨1, 10⟩], [⟨1, 1, 100, 2⟩, ⟨2, 2, 100, 1⟩], [⟨100, 5⟩], [], []⟩
      10 false 50 ⟨1, 10⟩ [(⟨1, 1, 100, 2⟩, ⟨100, 5⟩)]
      (by decide) (by decide)).1

/-- Claim C10: both login endpoints return HTTP 401 with an identical error
body for a non-existent email and for a registered email with a wrong
password, so the observable responses of the two failure modes are equal
and a caller cannot tell whether an email is registered. -/
theorem login_indistinguishable (usersN : List WebUser)
    (usersE : List MongoUser) (cmp : String → String → Bool)
    (sign : WebUser → String) (e1 p1 e2 p2 e3 p3 e4 p4 : String)
    (u2 : WebUser) (u4 : MongoUser)
    (he1 : ¬ e1 = "") (hp1 : ¬ p1 = "")
    (h1 : usersN.find? (fun u => u.email = e1) = none)
    (he2 : ¬ e2 = "") (hp2 : ¬ p2 = "")
    (h2 : usersN.find? (fun u => u.email = e2) = some u2)
    (hw2 : cmp p2 u2.password = false)
    (he3 : ¬ e3 = "") (hp3 : ¬ p3 = "")
    (h3 : usersE.find? (fun u => u.email = toLowerStr e3) = none)
    (he4 : ¬ e4 = "") (hp4 : ¬ p4 = "")
    (h4 : usersE.find? (fun u => u.email = toLowerStr e4) = some u4)
    (hw4 : cmp p4 u4.password = false) :
    nextLoginHandler usersN cmp sign e1 p1 = ⟨401, "invalid credentials"⟩ ∧
    nextLoginHandler usersN cmp sign e2 p2 = ⟨401, "invalid credentials"⟩ ∧
    nextLoginHandler usersN cmp sign e1 p1 =
      nextLoginHandler usersN cmp sign e2 p2 ∧
    expressLoginHandler usersE cmp e3 p3 =
      ⟨401, "Invalid credentials. Access denied."⟩ ∧
    expressLoginHandler usersE cmp e4 p4 =
      ⟨401, "Invalid credentials. Access denied."⟩ ∧
    expressLoginHandler usersE cmp e3 p3 =
      expressLoginHandler usersE cmp e4 p4 := by
  have hN1 : nextLoginHandler usersN cmp sign e1 p1 =
      ⟨401, "invalid credentials"⟩ := by
    simp [nextLoginHandler, he1, hp1, h1]
  have hN2 : nextLoginHandler usersN cmp sign e2 p2 =
      ⟨401, "invalid credentials"⟩ := by
    simp [nextLoginHandler, he2, hp2, h2, hw2]
  have hE1 : expressLoginHandler usersE cmp e3 p3 =
      ⟨401, "Invalid credentials. Access denied."⟩ := by
    simp [expressLoginHandler, he3, hp3, h3]
  have hE2 : expressLoginHandler usersE cmp e4 p4 =
      ⟨401, "Invalid credentials. Access denied."⟩ := by
    simp [expressLoginHandler, he4, hp4, h4, hw4]
  exact ⟨hN1, hN2, hN1.trans hN2.symm, hE1, hE2, hE1.trans hE2.symm⟩

/-- Witness for C10: one registered user per backend; an unknown email and
a wrong password produce the same observable response (the Express pair
also exercises the email lowercasing). -/
theorem login_indistinguishable_witness :
    nextLoginHandler [⟨1, "u", "a@x", "H", false⟩] (fun _ _ => false)
        (fun _ => "t") "b@x" "x" =
      nextLoginHandler [⟨1, "u", "a@x", "H", false⟩] (fun _ _ => false)
        (fun _ => "t") "a@x" "bad" ∧
    expressLoginHandler [⟨"n", "a@x", "H"⟩] (fun _ _ => false) "c@x" "x" =
      expressLoginHandler [⟨"n", "a@x", "H"⟩] (fun _ _ => false) "A@x" "bad" :=
  have h := login_indistinguishable [⟨1, "u", "a@x", "H", false⟩]
    [⟨"n", "a@x", "H"⟩] (fun _ _ => false) (fun _ => "t")
    "b@x" "x" "a@x" "bad" "c@x" "x" "A@x" "bad"
    ⟨1, "u", "a@x", "H", false⟩ ⟨"n", "a@x", "H"⟩
    (by decide) (by decide) (by decide)
    (by decide) (by decide) (by decide) rfl
    (by decide) (by decide) (by decide)
    (by decide) (by decide) (by decide) rfl
  ⟨h.2.2.1, h.2.2.2.2.2⟩

end RukeApis
